import Mathlib

/-!
Verification development for the generated flatbuffer accessor module
onnxruntime/core/flatbuffers/ort_flatbuffers_py/fbs/OpInfo.py.

The module is generated accessor code over a zero-copy binary table format.
The accessor functions themselves (GetRootAsOpInfo, OpInfoBufferHasIdentifier,
Init, OpKernelTypeStrArgs, OpKernelTypeStrArgsLength, OpKernelTypeStrArgsIsNone,
OpInfoStart, OpInfoAddOpKernelTypeStrArgs, OpInfoStartOpKernelTypeStrArgsVector,
OpInfoEnd) are translated directly from the source.  The serialization runtime
they call into (byte reads, table/vtable resolution, the builder) is external
to the repository, so those primitives are modelled from the specification of
the minimal table/vtable/vector engine (little-endian bounds-checked reads,
vtable field-offset resolution with forward compatibility, back-to-front
builder with vtable deduplication).

Buffers are lists of bytes (each entry a Nat below 256 when produced by the
writers).  Fallible reads return Option: none models the fatal OutOfRange
condition of the spec.
-/

/-- little-endian encoding of a 16-bit value as two bytes. -/
def u16le (v : Nat) : List Nat := [v % 256, v / 256 % 256]

/-- little-endian encoding of a 32-bit value as four bytes. -/
def u32le (v : Nat) : List Nat :=
  [v % 256, v / 256 % 256, v / 65536 % 256, v / 16777216 % 256]

/-- encoding of an Int as a two's-complement 32-bit unsigned value. -/
def intToU32 (i : Int) : Nat := (i % 4294967296).toNat

/-- read of one byte; none when the position is out of range
(the spec's fatal OutOfRange, never silently clamped). -/
def readU8? (bs : List Nat) (p : Nat) : Option Nat := bs[p]?

/-- Modelled from the spec: the ByteBuffer 16-bit little-endian bounds-checked
read of the external serialization runtime (the runtime is not part of the
repository sources). -/
def readU16? (bs : List Nat) (p : Nat) : Option Nat :=
  (readU8? bs p).bind fun a =>
  (readU8? bs (p + 1)).bind fun b =>
  some (a + 256 * b)

/-- Modelled from the spec: the ByteBuffer 32-bit little-endian bounds-checked
read of the external serialization runtime. -/
def readU32? (bs : List Nat) (p : Nat) : Option Nat :=
  (readU8? bs p).bind fun a =>
  (readU8? bs (p + 1)).bind fun b =>
  (readU8? bs (p + 2)).bind fun c =>
  (readU8? bs (p + 3)).bind fun d =>
  some (a + 256 * b + 65536 * c + 16777216 * d)

/-- Modelled from the spec: signed 32-bit little-endian read (the table's
vtable-offset field is a signed relative offset), two's complement decode. -/
def readI32? (bs : List Nat) (p : Nat) : Option Int :=
  (readU32? bs p).map fun (n : Nat) =>
    if n < 2147483648 then (n : Int) else (n : Int) - 4294967296

/-- Table View: a read-only cursor over a finalized buffer, bound to an
absolute position.  Mirrors flatbuffers.table.Table(buf, pos). -/
structure Table where
  bytes : List Nat
  pos : Nat
deriving DecidableEq, Repr

namespace Table

/-- Modelled from the spec: fieldOffset resolution.  Reads the table's
vtable-offset field, follows it to the vtable, reads the 16-bit entry at the
requested vtable byte position; returns 0 when the vtable is shorter than the
requested position (field absent in an older schema version, the forward
compatibility contract) or when the stored entry is 0. -/
def Offset (t : Table) (vtableOffset : Nat) : Option Nat :=
  (readI32? t.bytes t.pos).bind fun so =>
    let vtI : Int := (t.pos : Int) - so
    if vtI < 0 then none else
    let vt := vtI.toNat
    (readU16? t.bytes vt).bind fun vtEnd =>
      if vtableOffset < vtEnd then readU16? t.bytes (vt + vtableOffset)
      else some 0

/-- Modelled from the spec: vectorView element base.  Follows the stored
relative offset to the vector, then skips the 4-byte length header to the
first element position. -/
def Vector (t : Table) (off : Nat) : Option Nat :=
  let a := t.pos + off
  (readU32? t.bytes a).map fun u => a + u + 4

/-- Modelled from the spec: vector length, the 32-bit count stored at the
vector's own position (reached through the stored relative offset). -/
def VectorLen (t : Table) (off : Nat) : Option Nat :=
  let a := t.pos + off
  (readU32? t.bytes a).bind fun u => readU32? t.bytes (a + u)

/-- Modelled from the spec: indirect, one extra dereference for elements that
are themselves offsets to tables. -/
def Indirect (t : Table) (off : Nat) : Option Nat :=
  (readU32? t.bytes off).map fun u => off + u

end Table

/-- Modelled from the spec: the nested-table type OpIdKernelTypeStrArgsEntry
imported by the source; its own generated module is not among the provided
sources.  Only its binding (Init capturing buffer and position) is needed. -/
structure OpIdKernelTypeStrArgsEntry where
  tab : Table
deriving DecidableEq, Repr

/-- binds a nested entry view to a buffer and absolute position,
mirroring obj.Init(buf, pos) in the source. -/
def OpIdKernelTypeStrArgsEntry.Init (buf : List Nat) (pos : Nat) :
    OpIdKernelTypeStrArgsEntry := ⟨⟨buf, pos⟩⟩

/-- the OpInfo table view class from the source. -/
structure OpInfo where
  tab : Table
deriving DecidableEq, Repr

/-- OpInfo.Init from the source: binds the view, no validation performed. -/
def OpInfo.Init (buf : List Nat) (pos : Nat) : OpInfo := ⟨⟨buf, pos⟩⟩

/-- GetRootAsOpInfo from the source: reads the 32-bit root offset stored at
the given position and binds an OpInfo view at offset plus that value. -/
def GetRootAsOpInfo (buf : List Nat) (offset : Nat) : Option OpInfo :=
  (readU32? buf offset).map fun n => OpInfo.Init buf (n + offset)

/-- the 4-byte ASCII file identifier from the source, bytes 4F 52 54 4D. -/
def ortmIdent : List Nat := [79, 82, 84, 77]

/-- Modelled from the spec: bufferHasIdentifier of the external runtime.
Compares the 4 bytes located at offset+4 (offset+8 when size-prefixed)
against the expected identifier; returns a boolean, never throws (a slice
running past the end of the buffer is shorter than 4 bytes and compares
unequal). -/
def BufferHasIdentifier (buf : List Nat) (offset : Nat) (ident : List Nat)
    (sizePrefixed : Bool) : Bool :=
  let base := if sizePrefixed then offset + 4 else offset
  ((buf.drop (base + 4)).take 4) == ident

/-- OpInfoBufferHasIdentifier from the source, with the identifier ORTM. -/
def OpInfoBufferHasIdentifier (buf : List Nat) (offset : Nat)
    (sizePrefixed : Bool) : Bool :=
  BufferHasIdentifier buf offset ortmIdent sizePrefixed

namespace OpInfo

/-- OpKernelTypeStrArgs(j) from the source: resolve vtable byte position 4;
when present, follow the vector, step j elements of 4 bytes, follow one more
indirection and bind the nested entry view; when absent return the inner
none (the source's None).  The outer none models a failed (out of range)
byte read, which in the source is an exception, not a None result. -/
def OpKernelTypeStrArgs (x : OpInfo) (j : Nat) :
    Option (Option OpIdKernelTypeStrArgsEntry) :=
  (x.tab.Offset 4).bind fun o =>
    if o ≠ 0 then
      (x.tab.Vector o).bind fun v =>
        (x.tab.Indirect (v + j * 4)).bind fun p =>
          some (some (OpIdKernelTypeStrArgsEntry.Init x.tab.bytes p))
    else some none

/-- OpKernelTypeStrArgsLength from the source: vector length when the field
is present, 0 when absent. -/
def OpKernelTypeStrArgsLength (x : OpInfo) : Option Nat :=
  (x.tab.Offset 4).bind fun o =>
    if o ≠ 0 then x.tab.VectorLen o else some 0

/-- OpKernelTypeStrArgsIsNone from the source: whether the resolved vtable
entry for byte position 4 is 0. -/
def OpKernelTypeStrArgsIsNone (x : OpInfo) : Option Bool :=
  (x.tab.Offset 4).map fun o => o == 0

end OpInfo

/-- helper: when the opKernelTypeStrArgs field is present (nonzero resolved
vtable entry), the element accessor never produces the inner none, whatever
the index: the source performs no bounds check of j. -/
theorem opKernelTypeStrArgs_present_not_none (x : OpInfo) (j o : Nat)
    (ho : x.tab.Offset 4 = some o) (h0 : o ≠ 0) :
    x.OpKernelTypeStrArgs j ≠ some none := by
  unfold OpInfo.OpKernelTypeStrArgs
  cases hv : x.tab.Vector o with
  | none => simp [ho, h0, hv]
  | some v =>
    cases hi : x.tab.Indirect (v + j * 4) with
    | none => simp [ho, h0, hv, hi]
    | some p => simp [ho, h0, hv, hi]

/-- C4: OpInfoBufferHasIdentifier(buf, offset, size_prefixed) returns True
exactly when the 4 bytes at offset+4 (offset+8 when size-prefixed) equal the
ASCII identifier ORTM (bytes 4F 52 54 4D); in every other case, a buffer too
short to hold those 4 bytes included, it returns False (it is a total
Bool-valued function, so it never throws). -/
theorem c4_buffer_has_identifier_iff (buf : List Nat) (offset : Nat) (sp : Bool) :
    OpInfoBufferHasIdentifier buf offset sp = true ↔
      (buf.drop (if sp then offset + 8 else offset + 4)).take 4 = ortmIdent := by
  cases sp <;>
    simp [OpInfoBufferHasIdentifier, BufferHasIdentifier, Nat.add_assoc]

/-- C5: GetRootAsOpInfo reads the unsigned 32-bit little-endian root offset
stored at the given position and returns an OpInfo view whose table position
is offset + rootOffsetValue. -/
theorem c5_get_root_position (buf : List Nat) (offset n : Nat)
    (h : readU32? buf offset = some n) :
    GetRootAsOpInfo buf offset = some (OpInfo.Init buf (offset + n)) := by
  simp [GetRootAsOpInfo, h, Nat.add_comm]

/-- C5 witness: a concrete buffer whose root offset 4 is readable at
position 0 and resolves to a view at position 4. -/
theorem c5_get_root_position_witness :
    GetRootAsOpInfo [4, 0, 0, 0, 9, 9, 9, 9] 0 =
      some (OpInfo.Init [4, 0, 0, 0, 9, 9, 9, 9] (0 + 4)) :=
  c5_get_root_position [4, 0, 0, 0, 9, 9, 9, 9] 0 4 (by decide)

/-- helper: the element accessor yields the inner none exactly when the
resolved vtable entry for the field is 0. -/
theorem opKernelTypeStrArgs_none_iff (x : OpInfo) (j : Nat) :
    x.OpKernelTypeStrArgs j = some none ↔ x.tab.Offset 4 = some 0 := by
  constructor
  · intro h
    cases ho : x.tab.Offset 4 with
    | none => simp [OpInfo.OpKernelTypeStrArgs, ho] at h
    | some o =>
      by_cases h0 : o = 0
      · rw [h0]
      · exact absurd h (opKernelTypeStrArgs_present_not_none x j o ho h0)
  · intro h
    simp [OpInfo.OpKernelTypeStrArgs, h]

/-- C8: OpKernelTypeStrArgs(j) returns the source's None exactly when the
opKernelTypeStrArgs field is absent (resolved vtable entry 0); when the field
is present no bounds check of j is performed and the accessor never returns
None, whatever j. -/
theorem c8_none_iff_absent (x : OpInfo) (j : Nat) :
    x.OpKernelTypeStrArgs j = some none ↔ x.tab.Offset 4 = some 0 :=
  opKernelTypeStrArgs_none_iff x j

/-- C10: GetRootAsOpInfo never validates the file identifier: whenever the
root offset itself is readable it returns the view at rootOffset + offset,
whatever the result of OpInfoBufferHasIdentifier on the same buffer. -/
theorem c10_root_ignores_identifier (buf : List Nat) (offset n : Nat)
    (sp idOk : Bool)
    (hn : readU32? buf offset = some n)
    (hid : OpInfoBufferHasIdentifier buf offset sp = idOk) :
    GetRootAsOpInfo buf offset = some (OpInfo.Init buf (n + offset)) := by
  simp [GetRootAsOpInfo, hn]

/-- C10 witness: a buffer that fails the identifier check (its bytes at
position 4 are not ORTM) while GetRootAsOpInfo still returns the view. -/
theorem c10_root_ignores_identifier_witness :
    GetRootAsOpInfo [4, 0, 0, 0, 1, 2, 3, 4] 0 =
      some (OpInfo.Init [4, 0, 0, 0, 1, 2, 3, 4] (4 + 0)) :=
  c10_root_ignores_identifier [4, 0, 0, 0, 1, 2, 3, 4] 0 4 false false
    (by decide) (by decide)

/-- C3: on a buffer whose OpInfo table resolves to a vtable shorter than the
requested byte position 4, the field-offset lookup returns 0 (not a failure)
and all three accessors report the field as absent. -/
theorem c3_short_vtable_absent (buf : List Nat) (pos : Nat) (so : Int)
    (vtEnd : Nat)
    (hso : readI32? buf pos = some so)
    (hnn : 0 ≤ (pos : Int) - so)
    (hvt : readU16? buf ((pos : Int) - so).toNat = some vtEnd)
    (hshort : vtEnd ≤ 4) :
    (OpInfo.Init buf pos).tab.Offset 4 = some 0 ∧
    (OpInfo.Init buf pos).OpKernelTypeStrArgsLength = some 0 ∧
    (OpInfo.Init buf pos).OpKernelTypeStrArgsIsNone = some true ∧
    ∀ j, (OpInfo.Init buf pos).OpKernelTypeStrArgs j = some none := by
  have hofs : (OpInfo.Init buf pos).tab.Offset 4 = some 0 := by
    unfold Table.Offset
    simp only [OpInfo.Init]
    rw [hso]
    simp only [Option.some_bind]
    rw [if_neg (by omega)]
    rw [hvt]
    simp only [Option.some_bind]
    rw [if_neg (by omega)]
  refine ⟨hofs, ?_, ?_, ?_⟩
  · simp [OpInfo.OpKernelTypeStrArgsLength, hofs]
  · simp [OpInfo.OpKernelTypeStrArgsIsNone, hofs]
  · intro j
    simp [OpInfo.OpKernelTypeStrArgs, hofs]

/-- C3 witness: a concrete buffer holding a vtable of byte size 4 (too short
for byte position 4) and a table pointing at it. -/
theorem c3_short_vtable_absent_witness :
    (OpInfo.Init [4, 0, 4, 0, 4, 0, 0, 0] 4).tab.Offset 4 = some 0 ∧
    (OpInfo.Init [4, 0, 4, 0, 4, 0, 0, 0] 4).OpKernelTypeStrArgsLength = some 0 ∧
    (OpInfo.Init [4, 0, 4, 0, 4, 0, 0, 0] 4).OpKernelTypeStrArgsIsNone = some true ∧
    ∀ j, (OpInfo.Init [4, 0, 4, 0, 4, 0, 0, 0] 4).OpKernelTypeStrArgs j = some none :=
  c3_short_vtable_absent [4, 0, 4, 0, 4, 0, 0, 0] 4 4 4
    (by decide) (by decide) (by decide) (by decide)

/-- a small concrete finished buffer used by witnesses: a vtable of byte size
6 at position 0 (table size 8, slot entry 4), a table at position 6, its
vector field at 10 pointing 4 bytes forward, the vector at 14 with length 1
and one element at 18 pointing 4 bytes forward to position 22. -/
def demoBuf : List Nat :=
  [6, 0, 8, 0, 4, 0, 6, 0, 0, 0, 4, 0, 0, 0, 1, 0, 0, 0, 4, 0, 0, 0]

/-- C9: on a fixed buffer the three accessors resolve the same vtable slot
(byte position 4) and are mutually consistent: IsNone reports whether the
resolved entry is 0, Length is 0 when it is and otherwise is the 32-bit
count stored at the vector's position, and the element accessor yields None
exactly when the entry is 0. -/
theorem c9_accessor_consistency (x : OpInfo) (j o : Nat)
    (ho : x.tab.Offset 4 = some o) :
    x.OpKernelTypeStrArgsIsNone = some (o == 0) ∧
    x.OpKernelTypeStrArgsLength = (if o = 0 then some 0 else x.tab.VectorLen o) ∧
    (x.OpKernelTypeStrArgs j = some none ↔ o = 0) := by
  refine ⟨?_, ?_, ?_⟩
  · simp [OpInfo.OpKernelTypeStrArgsIsNone, ho]
  · by_cases h0 : o = 0 <;> simp [OpInfo.OpKernelTypeStrArgsLength, ho, h0]
  · rw [opKernelTypeStrArgs_none_iff, ho]
    by_cases h0 : o = 0 <;> simp [h0]

/-- C9 witness: on the concrete demo buffer the field resolves to entry 4,
IsNone is false, Length is the stored count 1, and element 0 is not None. -/
theorem c9_accessor_consistency_witness :
    (OpInfo.Init demoBuf 6).OpKernelTypeStrArgsIsNone = some ((4 : Nat) == 0) ∧
    (OpInfo.Init demoBuf 6).OpKernelTypeStrArgsLength =
      (if (4 : Nat) = 0 then some 0 else (OpInfo.Init demoBuf 6).tab.VectorLen 4) ∧
    ((OpInfo.Init demoBuf 6).OpKernelTypeStrArgs 0 = some none ↔ (4 : Nat) = 0) :=
  c9_accessor_consistency (OpInfo.Init demoBuf 6) 0 4 (by decide)

/-- C6: when the field is present, OpKernelTypeStrArgs(j) locates element j
at the vector position (pos + field entry + stored relative offset) plus the
4-byte length header plus j * 4, then follows one additional stored 32-bit
relative offset before binding the nested entry view: double indirection for
vector-of-tables elements. -/
theorem c6_double_indirection (x : OpInfo) (j o voff u : Nat)
    (ho : x.tab.Offset 4 = some o) (h0 : o ≠ 0)
    (hv : readU32? x.tab.bytes (x.tab.pos + o) = some voff)
    (hu : readU32? x.tab.bytes (x.tab.pos + o + voff + 4 + j * 4) = some u) :
    x.OpKernelTypeStrArgs j =
      some (some (OpIdKernelTypeStrArgsEntry.Init x.tab.bytes
        (x.tab.pos + o + voff + 4 + j * 4 + u))) := by
  have hvec : x.tab.Vector o = some (x.tab.pos + o + voff + 4) := by
    simp [Table.Vector, hv]
  have hind : x.tab.Indirect (x.tab.pos + o + voff + 4 + j * 4) =
      some (x.tab.pos + o + voff + 4 + j * 4 + u) := by
    simp [Table.Indirect, hu]
  simp [OpInfo.OpKernelTypeStrArgs, ho, h0, hvec, hind]

/-- C6 witness: on the concrete demo buffer, element 0 of the present vector
is reached through the vector at position 14 (field entry 4 plus stored
offset 4 from position 10), the 4-byte header, and one further stored offset
4 at position 18, binding the entry view at position 22. -/
theorem c6_double_indirection_witness :
    (OpInfo.Init demoBuf 6).OpKernelTypeStrArgs 0 =
      some (some (OpIdKernelTypeStrArgsEntry.Init demoBuf
        (6 + 4 + 4 + 4 + 0 * 4 + 4))) :=
  c6_double_indirection (OpInfo.Init demoBuf 6) 0 4 4 4
    (by decide) (by decide) (by decide) (by decide)

/-- number of zero bytes the builder prepends so that, after a further
`add` bytes, the total built size is a multiple of `align`. -/
def padLen (align add len : Nat) : Nat := (align - (len + add) % align) % align

/-- Modelled from the spec: the back-to-front Builder of the external
serialization runtime.  `bytes` is the region built so far, head of the list
being the lowest address (the buffer grows by prepending); an offset value is
a distance from the fixed end of the buffer, so `bytes.length` is the current
write cursor.  `vt` is the in-progress vtable (field slots, 0 meaning
absent), `objectEnd` the cursor recorded at startObject, `vtables` the
offsets of previously written vtables used for deduplication. -/
structure Builder where
  bytes : List Nat
  minalign : Nat
  vt : List Nat
  objectEnd : Nat
  vtables : List Nat
deriving DecidableEq, Repr

namespace Builder

/-- current write cursor, as a distance from the end of the buffer. -/
def offset (b : Builder) : Nat := b.bytes.length

/-- Modelled from the spec: alignment preparation; pads with zero bytes so
that after `add` further bytes the cursor is `align`-aligned, and tracks the
largest alignment seen for the final root alignment. -/
def prep (b : Builder) (align add : Nat) : Builder :=
  ⟨List.replicate (padLen align add b.bytes.length) 0 ++ b.bytes,
   max b.minalign align, b.vt, b.objectEnd, b.vtables⟩

/-- writes four little-endian bytes at the cursor, no alignment. -/
def place32 (b : Builder) (v : Nat) : Builder :=
  ⟨u32le v ++ b.bytes, b.minalign, b.vt, b.objectEnd, b.vtables⟩

/-- Modelled from the spec: prepends a 32-bit offset, bias-corrected to be
relative to its own storage position (distance from the written word forward
to the target offset, the 4 bytes of the word included). -/
def PrependUOffsetTRelative (b : Builder) (off : Nat) : Builder :=
  let b1 := b.prep 4 0
  b1.place32 (b1.offset + 4 - off)

/-- Modelled from the spec: begins a table, recording a fresh in-progress
vtable of `numFields` absent slots and the current cursor as object end. -/
def StartObject (b : Builder) (numFields : Nat) : Builder :=
  ⟨b.bytes, b.minalign, List.replicate numFields 0, b.bytes.length, b.vtables⟩

/-- records the field written last into the in-progress vtable slot. -/
def Slot (b : Builder) (slotIndex : Nat) : Builder :=
  ⟨b.bytes, b.minalign, b.vt.set slotIndex b.bytes.length, b.objectEnd,
   b.vtables⟩

/-- Modelled from the spec: writes a 32-bit relative offset at the cursor
only when the value differs from the default, recording the field's offset
into the in-progress vtable; a defaulted field is simply skipped. -/
def PrependUOffsetTRelativeSlot (b : Builder) (slotIndex value default : Nat) :
    Builder :=
  if value ≠ default then (b.PrependUOffsetTRelative value).Slot slotIndex
  else b

/-- Modelled from the spec: reserves an aligned, length-prefixed vector of
`numElems` elements of `elemSize` bytes; elements are then written by the
caller in reverse index order (a consequence of back-to-front growth). -/
def StartVector (b : Builder) (elemSize numElems alignment : Nat) : Builder :=
  (b.prep 4 (elemSize * numElems)).prep alignment (elemSize * numElems)

/-- Modelled from the spec: closes a vector by writing the 32-bit element
count before the elements, returning the vector's offset. -/
def EndVector (b : Builder) (numElems : Nat) : Builder × Nat :=
  let b1 := b.place32 numElems
  (b1, b1.offset)

end Builder

/-- trailing absent slots of an in-progress vtable are trimmed before the
vtable is written. -/
def trimZeros (l : List Nat) : List Nat :=
  (l.reverse.dropWhile (fun v => v == 0)).reverse

/-- serialized form of a vtable: 16-bit vtable byte size, 16-bit table byte
size, then the 16-bit field offsets (distance from the table position back to
each stored field, 0 for an absent slot) in slot order. -/
def vtableBytes (trimmed : List Nat) (objOff objEnd : Nat) : List Nat :=
  u16le ((trimmed.length + 2) * 2) ++ u16le (objOff - objEnd) ++
    (trimmed.map fun s => u16le (if s = 0 then 0 else objOff - s)).flatten

/-- forward slice of a byte list: `len` bytes starting at `start`. -/
def sliceAt (bs : List Nat) (start len : Nat) : List Nat :=
  (bs.drop start).take len

namespace Builder

/-- Modelled from the spec: endObject writes the accumulated vtable
(deduplicating against previously emitted vtables with identical content,
compared by exact byte sequence), writes the table's signed 32-bit
vtable-offset field, and returns the absolute offset of the finalized
table.  When a structurally identical vtable already exists only the
vtable-offset field is written, pointing backward (a negative delta stored
in two's complement) at the shared vtable. -/
def EndObject (b : Builder) : Builder × Nat :=
  let b1 := b.prep 4 0
  let objOff := b1.offset + 4
  let cand := vtableBytes (trimZeros b1.vt) objOff b1.objectEnd
  match b1.vtables.find?
      (fun vo => sliceAt b1.bytes (b1.bytes.length - vo) cand.length == cand)
    with
  | some vo =>
      (⟨u32le (intToU32 ((vo : Int) - objOff)) ++ b1.bytes, b1.minalign, [],
        b1.objectEnd, b1.vtables⟩, objOff)
  | none =>
      (⟨cand ++ u32le cand.length ++ b1.bytes, b1.minalign, [], b1.objectEnd,
        (objOff + cand.length) :: b1.vtables⟩, objOff)

/-- Modelled from the spec: finish aligns to the largest alignment seen and
writes the 32-bit root offset at the buffer's logical start; the built byte
region is then the finished, immutable buffer, read from position 0. -/
def Finish (b : Builder) (rootTable : Nat) : Builder :=
  (b.prep b.minalign 4).PrependUOffsetTRelative rootTable

end Builder

/-- OpInfoStart from the source: begins the one-field OpInfo table. -/
def OpInfoStart (builder : Builder) : Builder := builder.StartObject 1

/-- OpInfoAddOpKernelTypeStrArgs from the source: prepends the vector offset
into slot 0 with default 0. -/
def OpInfoAddOpKernelTypeStrArgs (builder : Builder)
    (opKernelTypeStrArgs : Nat) : Builder :=
  builder.PrependUOffsetTRelativeSlot 0 opKernelTypeStrArgs 0

/-- OpInfoStartOpKernelTypeStrArgsVector from the source: a vector of 4-byte
elements aligned to 4. -/
def OpInfoStartOpKernelTypeStrArgsVector (builder : Builder) (numElems : Nat) :
    Builder :=
  builder.StartVector 4 numElems 4

/-- OpInfoEnd from the source: finalizes the table. -/
def OpInfoEnd (builder : Builder) : Builder × Nat := builder.EndObject

/-- the claim's build sequence for a vector-of-tables value: the element
table offsets `ts` (distances from the buffer end to nested tables already
built in `b0`) are written in reverse index order between the start and end
of the vector, the vector offset is stored into the OpInfo table, and the
finished table becomes the root. -/
def buildOpInfoBuffer (b0 : Builder) (ts : List Nat) : List Nat :=
  let b1 := OpInfoStartOpKernelTypeStrArgsVector b0 ts.length
  let b2 := ts.reverse.foldl (fun b t => b.PrependUOffsetTRelative t) b1
  let r := b2.EndVector ts.length
  let b4 := OpInfoStart r.1
  let b5 := OpInfoAddOpKernelTypeStrArgs b4 r.2
  let r2 := OpInfoEnd b5
  (r2.1.Finish r2.2).bytes

/-- the build sequence with the field never written: the value passed to the
slot-prepend helper equals its default 0, so nothing is stored. -/
def buildEmptyOpInfoBuffer (b0 : Builder) : List Nat :=
  let b1 := OpInfoStart b0
  let b2 := OpInfoAddOpKernelTypeStrArgs b1 0
  let r := OpInfoEnd b2
  (r.1.Finish r.2).bytes

/-- in-buffer forward image of the vector elements: element j of the vector,
written when the cursor was at s0 + 4 * (length - 1 - j), stores the
relative offset s0 + 4 * (length - j) - t to its target table. -/
def vecElemBytes (s0 : Nat) : List Nat → List Nat
  | [] => []
  | t :: rest => u32le (s0 + 4 * (t :: rest).length - t) ++ vecElemBytes s0 rest

theorem u32le_length (v : Nat) : (u32le v).length = 4 := rfl

theorem u16le_length (v : Nat) : (u16le v).length = 2 := rfl

theorem readU8?_append (xs ys : List Nat) (p : Nat) :
    readU8? (xs ++ ys) (xs.length + p) = readU8? ys p := by
  simp [readU8?, List.getElem?_append_right (Nat.le_add_right xs.length p)]

theorem readU16?_append (xs ys : List Nat) (p : Nat) :
    readU16? (xs ++ ys) (xs.length + p) = readU16? ys p := by
  simp [readU16?, Nat.add_assoc, readU8?_append]

theorem readU32?_append (xs ys : List Nat) (p : Nat) :
    readU32? (xs ++ ys) (xs.length + p) = readU32? ys p := by
  simp [readU32?, Nat.add_assoc, readU8?_append]

theorem readU32?_u32le (v : Nat) (rest : List Nat) (hv : v < 4294967296) :
    readU32? (u32le v ++ rest) 0 = some v := by
  simp [readU32?, readU8?, u32le]
  omega

theorem readU16?_u16le (v : Nat) (rest : List Nat) (hv : v < 65536) :
    readU16? (u16le v ++ rest) 0 = some v := by
  simp [readU16?, readU8?, u16le]
  omega

theorem readU32?_skip (c ys : List Nat) (n p : Nat) (hc : c.length = n) :
    readU32? (c ++ ys) (n + p) = readU32? ys p := by
  rw [← hc, readU32?_append]

theorem readU16?_skip (c ys : List Nat) (n p : Nat) (hc : c.length = n) :
    readU16? (c ++ ys) (n + p) = readU16? ys p := by
  rw [← hc, readU16?_append]

theorem readI32?_skip (c ys : List Nat) (n p : Nat) (hc : c.length = n) :
    readI32? (c ++ ys) (n + p) = readI32? ys p := by
  simp [readI32?, readU32?_skip c ys n p hc]

theorem vecElemBytes_length (s0 : Nat) (l : List Nat) :
    (vecElemBytes s0 l).length = 4 * l.length := by
  induction l with
  | nil => simp [vecElemBytes]
  | cons t r ih =>
    simp only [vecElemBytes, List.length_append, List.length_cons, ih, u32le,
      List.length_cons]
    simp
    omega

theorem vecElemBytes_read (s0 : Nat) (l : List Nat) (rest : List Nat) (j : Nat)
    (hj : j < l.length) (hb : s0 + 4 * l.length < 4294967296) :
    readU32? (vecElemBytes s0 l ++ rest) (4 * j) =
      some (s0 + 4 * (l.length - j) - l[j]) := by
  induction l generalizing j rest with
  | nil => simp at hj
  | cons t r ih =>
    cases j with
    | zero =>
      simp only [vecElemBytes, List.append_assoc, Nat.mul_zero]
      rw [readU32?_u32le _ _ (by simp only [List.length_cons] at hb ⊢; omega)]
      simp
    | succ k =>
      have hk : k < r.length := by simpa using hj
      simp only [vecElemBytes, List.append_assoc]
      have e : 4 * (k + 1) = 4 + 4 * k := by omega
      rw [e, readU32?_skip _ _ 4 _ (by simp [u32le])]
      rw [ih rest k hk (by simp at hb ⊢; omega)]
      simp

theorem readU32?_at (c ys : List Nat) (q p : Nat) (h : q = c.length + p) :
    readU32? (c ++ ys) q = readU32? ys p := by
  rw [h, readU32?_append]

theorem readU16?_at (c ys : List Nat) (q p : Nat) (h : q = c.length + p) :
    readU16? (c ++ ys) q = readU16? ys p := by
  rw [h, readU16?_append]

theorem readI32?_at (c ys : List Nat) (q p : Nat) (h : q = c.length + p) :
    readI32? (c ++ ys) q = readI32? ys p := by
  simp only [readI32?, readU32?_at c ys q p h]

theorem padLen_four_zero (a len : Nat) (h : (len + a) % 4 = 0) :
    padLen 4 a len = 0 := by
  unfold padLen; omega

theorem padLen_four_mod (a len : Nat) :
    (len + padLen 4 a len + a) % 4 = 0 := by
  unfold padLen; omega

theorem padLen_four_le (a len : Nat) : padLen 4 a len ≤ 3 := by
  unfold padLen; omega

theorem trimZeros_singleton (v : Nat) (h : v ≠ 0) : trimZeros [v] = [v] := by
  simp [trimZeros, h]

theorem getElem?_of_sliceAt (bs cs : List Nat) (s : Nat)
    (h : sliceAt bs s cs.length = cs) (k : Nat) (hk : k < cs.length) :
    bs[s + k]? = some (cs[k]) := by
  have h1 : ((bs.drop s).take cs.length)[k]? = cs[k]? := by
    unfold sliceAt at h
    rw [h]
  rw [List.getElem?_take_of_lt hk, List.getElem?_drop] at h1
  rw [h1, List.getElem?_eq_getElem hk]

theorem readU16?_of_sliceAt (bs cs : List Nat) (s : Nat)
    (h : sliceAt bs s cs.length = cs) (i : Nat) (hi : i + 1 < cs.length) :
    readU16? bs (s + i) = some (cs[i] + 256 * cs[i + 1]) := by
  have g0 := getElem?_of_sliceAt bs cs s h i (by omega)
  have g1 := getElem?_of_sliceAt bs cs s h (i + 1) hi
  have e : s + (i + 1) = s + i + 1 := by omega
  rw [e] at g1
  simp [readU16?, readU8?, g0, g1]

theorem readI32?_u32le_small (v : Nat) (rest : List Nat)
    (hv : v < 2147483648) :
    readI32? (u32le v ++ rest) 0 = some (v : Int) := by
  simp only [readI32?]
  rw [readU32?_u32le v rest (by omega)]
  simp [hv]

theorem readI32?_u32le_int (i : Int) (rest : List Nat)
    (h1 : -2147483648 ≤ i) (h2 : i < 2147483648) :
    readI32? (u32le (intToU32 i) ++ rest) 0 = some i := by
  have hlt : intToU32 i < 4294967296 := by unfold intToU32; omega
  simp only [readI32?]
  rw [readU32?_u32le _ rest hlt]
  simp only [Option.map_some']
  congr 1
  split_ifs with h <;> (simp only [intToU32] at h ⊢) <;> omega

/-- forward layout of everything behind the root area of the built buffer:
the table's single stored field (value 4: the vector lies 4 bytes forward),
the vector's 32-bit length, the element words, the vector's alignment
padding, and the pre-existing bytes of the builder. -/
def opInfoTail (p1 : Nat) (ts old : List Nat) : List Nat :=
  u32le 4 ++ u32le ts.length ++ vecElemBytes (p1 + old.length) ts ++
    List.replicate p1 0 ++ old

theorem opInfoTail_length (p1 : Nat) (ts old : List Nat) :
    (opInfoTail p1 ts old).length = 8 + 4 * ts.length + p1 + old.length := by
  simp [opInfoTail, u32le, vecElemBytes_length]
  omega

/-- serialized vtable of an OpInfo table with its single field stored:
vtable byte size 6, table byte size 8, field stored 4 bytes after the
table position. -/
def opInfoVTable : List Nat := [6, 0, 8, 0, 4, 0]

/-- common reading lemma: a finished buffer consisting of a root area `pre`
(ending with the table's vtable-offset field) followed by the stored field,
the vector and the prior bytes is read back correctly by the accessors, as
soon as the field-offset resolution yields the stored entry 4. -/
theorem opinfo_read_common (B pre old : List Nat) (p1 P : Nat) (ts : List Nat)
    (hBdef : B = pre ++ opInfoTail p1 ts old)
    (hpre : pre.length = P + 4)
    (hofs : Table.Offset ⟨B, P⟩ 4 = some 4)
    (hts : ∀ t ∈ ts, t ≤ old.length)
    (hn : ts.length < 4294967296)
    (hb : old.length + p1 + 4 * ts.length < 4294967296) :
    OpInfo.OpKernelTypeStrArgsIsNone ⟨⟨B, P⟩⟩ = some false ∧
    OpInfo.OpKernelTypeStrArgsLength ⟨⟨B, P⟩⟩ = some ts.length ∧
    ∀ j, ∀ hj : j < ts.length,
      OpInfo.OpKernelTypeStrArgs ⟨⟨B, P⟩⟩ j =
        some (some ⟨⟨B, B.length - ts[j]⟩⟩) := by
  have hBlen : B.length = P + 12 + 4 * ts.length + p1 + old.length := by
    rw [hBdef, List.length_append, opInfoTail_length, hpre]
    omega
  have hread4 : readU32? B (P + 4) = some 4 := by
    rw [hBdef, readU32?_at pre _ (P + 4) 0 (by omega)]
    simp only [opInfoTail, List.append_assoc]
    exact readU32?_u32le 4 _ (by norm_num)
  have hreadn : readU32? B (P + 8) = some ts.length := by
    rw [hBdef, readU32?_at pre _ (P + 8) 4 (by omega)]
    simp only [opInfoTail, List.append_assoc]
    rw [readU32?_at (u32le 4) _ 4 0 (by simp only [u32le_length])]
    exact readU32?_u32le _ _ hn
  have hVecLen : Table.VectorLen ⟨B, P⟩ 4 = some ts.length := by
    simp only [Table.VectorLen]
    rw [hread4]
    simp only [Option.some_bind]
    have e : P + 4 + 4 = P + 8 := by omega
    rw [e]
    exact hreadn
  have hVec : Table.Vector ⟨B, P⟩ 4 = some (P + 12) := by
    simp only [Table.Vector]
    rw [hread4]
    simp only [Option.map_some']
  refine ⟨?_, ?_, ?_⟩
  · simp [OpInfo.OpKernelTypeStrArgsIsNone, hofs]
  · simp [OpInfo.OpKernelTypeStrArgsLength, hofs, hVecLen]
  · intro j hj
    have htj : ts[j] ≤ old.length := hts _ (List.getElem_mem hj)
    have hElem : readU32? B (P + 12 + j * 4) =
        some (p1 + old.length + 4 * (ts.length - j) - ts[j]) := by
      rw [hBdef, readU32?_at pre _ (P + 12 + j * 4) (8 + j * 4) (by omega)]
      simp only [opInfoTail, List.append_assoc]
      rw [readU32?_at (u32le 4) _ (8 + j * 4) (4 + j * 4)
        (by simp only [u32le_length]; omega)]
      rw [readU32?_at (u32le ts.length) _ (4 + j * 4) (j * 4)
        (by simp only [u32le_length])]
      have e : j * 4 = 4 * j := by omega
      rw [e]
      exact vecElemBytes_read _ _ _ j hj (by omega)
    have hInd : Table.Indirect ⟨B, P⟩ (P + 12 + j * 4) =
        some (B.length - ts[j]) := by
      simp only [Table.Indirect]
      rw [hElem]
      simp only [Option.map_some']
      congr 1
      omega
    simp only [OpInfo.OpKernelTypeStrArgs]
    rw [hofs]
    simp only [Option.some_bind]
    rw [if_pos (by norm_num : ¬ (4 : Nat) = 0)]
    rw [hVec]
    simp only [Option.some_bind]
    rw [hInd]
    simp only [Option.some_bind]
    rfl

/-- writing the element offsets in reverse index order prepends, in forward
buffer order, the element words described by vecElemBytes. -/
theorem foldPrepend (l : List Nat) (b : Builder)
    (h4 : b.bytes.length % 4 = 0) (hma : b.minalign = 4) :
    l.reverse.foldl (fun bb t => bb.PrependUOffsetTRelative t) b =
      ⟨vecElemBytes b.bytes.length l ++ b.bytes, 4, b.vt, b.objectEnd,
        b.vtables⟩ := by
  induction l with
  | nil =>
    cases b with
    | mk bs ma vt oe vts => simp_all [vecElemBytes]
  | cons t r ih =>
    rw [List.reverse_cons, List.foldl_append, ih]
    simp only [List.foldl_cons, List.foldl_nil]
    have hpad : padLen 4 0 ((vecElemBytes b.bytes.length r ++ b.bytes).length)
        = 0 := by
      apply padLen_four_zero
      simp [vecElemBytes_length]
      omega
    simp only [Builder.PrependUOffsetTRelative, Builder.prep, Builder.place32,
      Builder.offset, hpad, Nat.max_self]
    simp only [List.replicate_zero, List.nil_append]
    congr 1
    simp only [vecElemBytes, List.append_assoc]
    congr 2
    simp [vecElemBytes_length]
    omega

set_option maxHeartbeats 1000000

/-- C1: roundtrip for the vector-of-tables field.  For every prior builder
state (arbitrary already-built content, a well-formed vtable cache, an
alignment no coarser than 4 and a total size within the 32-bit offset
range) and every value of the field (a list of nested-table offsets,
each pointing into the already-built region), building a buffer via
OpInfoStart, OpInfoStartOpKernelTypeStrArgsVector, the reverse-order
element writes, OpInfoAddOpKernelTypeStrArgs and OpInfoEnd, and reading
it back via GetRootAsOpInfo and the read accessors yields the same value:
the length equals the number of elements written and element j resolves to
the very table offset ts[j] that was stored (as a distance from the buffer
end), whether or not the vtable was deduplicated against the cache. -/
theorem c1_roundtrip (b0 : Builder) (ts : List Nat)
    (hts : ∀ t ∈ ts, t ≤ b0.bytes.length)
    (hvts : ∀ vo ∈ b0.vtables, vo ≤ b0.bytes.length)
    (hma : b0.minalign ∣ 4)
    (hsz : b0.bytes.length + 4 * ts.length + 64 < 2147483648) :
    ∃ x : OpInfo,
      GetRootAsOpInfo (buildOpInfoBuffer b0 ts) 0 = some x ∧
      OpInfo.OpKernelTypeStrArgsIsNone x = some false ∧
      OpInfo.OpKernelTypeStrArgsLength x = some ts.length ∧
      ∀ j, ∀ hj : j < ts.length,
        OpInfo.OpKernelTypeStrArgs x j =
          some (some ⟨⟨buildOpInfoBuffer b0 ts,
            (buildOpInfoBuffer b0 ts).length - ts[j]⟩⟩) := by
  obtain ⟨p1, hp1⟩ : ∃ p, padLen 4 (4 * ts.length) b0.bytes.length = p :=
    ⟨_, rfl⟩
  have hp1le : p1 ≤ 3 := hp1 ▸ padLen_four_le _ _
  have hp1mod : (b0.bytes.length + p1 + 4 * ts.length) % 4 = 0 :=
    hp1 ▸ padLen_four_mod _ _
  have hm4 : max b0.minalign 4 = 4 :=
    Nat.max_eq_right (Nat.le_of_dvd (by norm_num) hma)
  -- step 1: start the vector
  have h1 : OpInfoStartOpKernelTypeStrArgsVector b0 ts.length =
      ⟨List.replicate p1 0 ++ b0.bytes, 4, b0.vt, b0.objectEnd, b0.vtables⟩ := by
    have hpad2 : padLen 4 (4 * ts.length)
        ((List.replicate p1 0 ++ b0.bytes).length) = 0 := by
      apply padLen_four_zero
      simp only [List.length_append, List.length_replicate]
      omega
    simp only [OpInfoStartOpKernelTypeStrArgsVector, Builder.StartVector,
      Builder.prep, hp1]
    simp only [hpad2, hm4, Nat.max_self, List.replicate, List.nil_append]
  -- step 2: write the elements in reverse index order
  have h2 : ts.reverse.foldl (fun b t => b.PrependUOffsetTRelative t)
        (⟨List.replicate p1 0 ++ b0.bytes, 4, b0.vt, b0.objectEnd,
          b0.vtables⟩ : Builder) =
      ⟨vecElemBytes (p1 + b0.bytes.length) ts ++
          (List.replicate p1 0 ++ b0.bytes), 4, b0.vt, b0.objectEnd,
        b0.vtables⟩ := by
    have := foldPrepend ts
      ⟨List.replicate p1 0 ++ b0.bytes, 4, b0.vt, b0.objectEnd, b0.vtables⟩
      (by simp only [List.length_append, List.length_replicate]; omega) rfl
    simpa using this
  -- step 3: close the vector with its length word
  have h3 : Builder.EndVector
        (⟨vecElemBytes (p1 + b0.bytes.length) ts ++
            (List.replicate p1 0 ++ b0.bytes), 4, b0.vt, b0.objectEnd,
          b0.vtables⟩ : Builder) ts.length =
      (⟨u32le ts.length ++ (vecElemBytes (p1 + b0.bytes.length) ts ++
            (List.replicate p1 0 ++ b0.bytes)), 4, b0.vt, b0.objectEnd,
          b0.vtables⟩,
        b0.bytes.length + p1 + 4 * ts.length + 4) := by
    simp only [Builder.EndVector, Builder.place32, Builder.offset,
      Prod.mk.injEq]
    refine ⟨trivial, ?_⟩
    simp [vecElemBytes_length, u32le_length]
    omega
  -- step 4: start the OpInfo table
  have h4s : OpInfoStart
        (⟨u32le ts.length ++ (vecElemBytes (p1 + b0.bytes.length) ts ++
            (List.replicate p1 0 ++ b0.bytes)), 4, b0.vt, b0.objectEnd,
          b0.vtables⟩ : Builder) =
      ⟨u32le ts.length ++ (vecElemBytes (p1 + b0.bytes.length) ts ++
          (List.replicate p1 0 ++ b0.bytes)), 4, [0],
        b0.bytes.length + p1 + 4 * ts.length + 4, b0.vtables⟩ := by
    simp only [OpInfoStart, Builder.StartObject]
    congr 1
    simp [vecElemBytes_length, u32le_length]
    omega
  -- step 5: store the vector offset into slot 0
  have h5 : OpInfoAddOpKernelTypeStrArgs
        (⟨u32le ts.length ++ (vecElemBytes (p1 + b0.bytes.length) ts ++
            (List.replicate p1 0 ++ b0.bytes)), 4, [0],
          b0.bytes.length + p1 + 4 * ts.length + 4, b0.vtables⟩ : Builder)
        (b0.bytes.length + p1 + 4 * ts.length + 4) =
      ⟨u32le 4 ++ (u32le ts.length ++ (vecElemBytes (p1 + b0.bytes.length) ts ++
          (List.replicate p1 0 ++ b0.bytes))), 4,
        [b0.bytes.length + p1 + 4 * ts.length + 8],
        b0.bytes.length + p1 + 4 * ts.length + 4, b0.vtables⟩ := by
    simp only [OpInfoAddOpKernelTypeStrArgs, Builder.PrependUOffsetTRelativeSlot]
    rw [if_pos (by omega : ¬ b0.bytes.length + p1 + 4 * ts.length + 4 = 0)]
    have hlen5 : (u32le ts.length ++ (vecElemBytes (p1 + b0.bytes.length) ts ++
        (List.replicate p1 0 ++ b0.bytes))).length =
        b0.bytes.length + p1 + 4 * ts.length + 4 := by
      simp [vecElemBytes_length, u32le_length]
      omega
    have hpad5 : padLen 4 0 ((u32le ts.length ++
        (vecElemBytes (p1 + b0.bytes.length) ts ++
          (List.replicate p1 0 ++ b0.bytes))).length) = 0 := by
      apply padLen_four_zero
      rw [hlen5]
      omega
    simp only [Builder.PrependUOffsetTRelative, Builder.prep, Builder.place32,
      Builder.offset, Builder.Slot, hpad5, Nat.max_self, List.replicate,
      List.nil_append]
    congr 1
    · congr 2
      rw [hlen5]
      omega
    · simp only [List.set_cons_zero, List.cons.injEq, and_true]
      rw [List.length_append, u32le_length, hlen5]
      omega
  -- length of the table-region bytes
  have hXlen : (u32le 4 ++ (u32le ts.length ++
      (vecElemBytes (p1 + b0.bytes.length) ts ++
        (List.replicate p1 0 ++ b0.bytes)))).length =
      b0.bytes.length + p1 + 4 * ts.length + 8 := by
    simp [vecElemBytes_length, u32le_length]
    omega
  -- the serialized vtable of this table
  have hcand : vtableBytes (trimZeros [b0.bytes.length + p1 + 4 * ts.length + 8])
      (b0.bytes.length + p1 + 4 * ts.length + 8 + 4)
      (b0.bytes.length + p1 + 4 * ts.length + 4) = opInfoVTable := by
    rw [trimZeros_singleton _ (by omega)]
    simp only [vtableBytes, List.map_cons, List.map_nil]
    rw [if_neg (by omega)]
    have e1 : b0.bytes.length + p1 + 4 * ts.length + 8 + 4 -
        (b0.bytes.length + p1 + 4 * ts.length + 4) = 8 := by omega
    have e2 : b0.bytes.length + p1 + 4 * ts.length + 8 + 4 -
        (b0.bytes.length + p1 + 4 * ts.length + 8) = 4 := by omega
    rw [e1, e2]
    simp [u16le, opInfoVTable]
  simp only [buildOpInfoBuffer]
  rw [h1, h2, h3]
  dsimp only
  rw [h4s, h5]
  simp only [OpInfoEnd, Builder.EndObject, Builder.prep, Builder.offset]
  have hpad6 : padLen 4 0 ((u32le 4 ++ (u32le ts.length ++
      (vecElemBytes (p1 + b0.bytes.length) ts ++
        (List.replicate p1 0 ++ b0.bytes)))).length) = 0 := by
    apply padLen_four_zero
    rw [hXlen]
    omega
  simp only [hpad6, List.replicate, List.nil_append, Nat.max_self]
  rw [hXlen]
  rw [hcand]
  have e3 : b0.bytes.length + p1 + 4 * ts.length + 8 + 4 =
      b0.bytes.length + p1 + 4 * ts.length + 12 := by omega
  rw [e3]
  have hlvt : opInfoVTable.length = 6 := rfl
  rw [hlvt]
  split
  next vo hfind =>
    have hvo : vo ≤ b0.bytes.length := hvts vo (List.mem_of_find?_eq_some hfind)
    have hslice : sliceAt (u32le 4 ++ (u32le ts.length ++ (vecElemBytes (p1 + b0.bytes.length) ts ++ (List.replicate p1 0 ++ b0.bytes)))) (b0.bytes.length + p1 + 4 * ts.length + 8 - vo) 6 = opInfoVTable := by
      have := List.find?_some hfind
      simpa using this
    dsimp only
    simp only [Builder.Finish, Builder.prep, Builder.PrependUOffsetTRelative,
      Builder.place32, Builder.offset]
    have hlenS : (u32le (intToU32 ((vo : Int) - ((b0.bytes.length + p1 + 4 * ts.length + 12 : Nat) : Int))) ++ (u32le 4 ++ (u32le ts.length ++ (vecElemBytes (p1 + b0.bytes.length) ts ++ (List.replicate p1 0 ++ b0.bytes))))).length = b0.bytes.length + p1 + 4 * ts.length + 12 := by
      simp only [List.length_append, u32le_length, hXlen]
      omega
    rw [hlenS]
    have hpadf : padLen 4 4 (b0.bytes.length + p1 + 4 * ts.length + 12) = 0 := by
      unfold padLen
      omega
    rw [hpadf]
    simp only [List.replicate_zero, List.nil_append]
    rw [hlenS]
    have hpadf0 : padLen 4 0 (b0.bytes.length + p1 + 4 * ts.length + 12) = 0 := by
      unfold padLen
      omega
    rw [hpadf0]
    simp only [List.replicate_zero, List.nil_append]
    rw [hlenS]
    have harg : b0.bytes.length + p1 + 4 * ts.length + 12 + 4 - (b0.bytes.length + p1 + 4 * ts.length + 12) = 4 := by omega
    rw [harg]
    have hslice' : sliceAt (u32le 4 ++ (u32le ts.length ++ (vecElemBytes (p1 + b0.bytes.length) ts ++ (List.replicate p1 0 ++ b0.bytes)))) (b0.bytes.length + p1 + 4 * ts.length + 8 - vo) opInfoVTable.length
        = opInfoVTable := hslice
    have hroot : readU32? (u32le 4 ++ (u32le (intToU32 ((vo : Int) - ((b0.bytes.length + p1 + 4 * ts.length + 12 : Nat) : Int))) ++ (u32le 4 ++ (u32le ts.length ++ (vecElemBytes (p1 + b0.bytes.length) ts ++ (List.replicate p1 0 ++ b0.bytes)))))) 0 = some 4 := readU32?_u32le 4 _ (by norm_num)
    have hBdef : (u32le 4 ++ (u32le (intToU32 ((vo : Int) - ((b0.bytes.length + p1 + 4 * ts.length + 12 : Nat) : Int))) ++ (u32le 4 ++ (u32le ts.length ++ (vecElemBytes (p1 + b0.bytes.length) ts ++ (List.replicate p1 0 ++ b0.bytes)))))) = (u32le 4 ++ u32le (intToU32 ((vo : Int) - ((b0.bytes.length + p1 + 4 * ts.length + 12 : Nat) : Int)))) ++ opInfoTail p1 ts b0.bytes := by
      simp [opInfoTail, List.append_assoc]
    have hpre : (u32le 4 ++ u32le (intToU32 ((vo : Int) - ((b0.bytes.length + p1 + 4 * ts.length + 12 : Nat) : Int)))).length = 4 + 4 := by
      simp [u32le_length]
    have hofs : Table.Offset ⟨(u32le 4 ++ (u32le (intToU32 ((vo : Int) - ((b0.bytes.length + p1 + 4 * ts.length + 12 : Nat) : Int))) ++ (u32le 4 ++ (u32le ts.length ++ (vecElemBytes (p1 + b0.bytes.length) ts ++ (List.replicate p1 0 ++ b0.bytes)))))), 4⟩ 4 = some 4 := by
      simp only [Table.Offset]
      have hso : readI32? (u32le 4 ++ (u32le (intToU32 ((vo : Int) - ((b0.bytes.length + p1 + 4 * ts.length + 12 : Nat) : Int))) ++ (u32le 4 ++ (u32le ts.length ++ (vecElemBytes (p1 + b0.bytes.length) ts ++ (List.replicate p1 0 ++ b0.bytes)))))) 4 =
          some ((vo : Int) - ((b0.bytes.length + p1 + 4 * ts.length + 12 : Nat) : Int)) := by
        rw [readI32?_at (u32le 4) _ 4 0 (by simp [u32le_length])]
        exact readI32?_u32le_int _ _ (by omega) (by omega)
      rw [hso]
      simp only [Option.some_bind]
      rw [if_neg (by omega)]
      have htn : ((((4 : Nat) : Int)) - ((vo : Int) - ((b0.bytes.length + p1 + 4 * ts.length + 12 : Nat) : Int))).toNat
          = 8 + (b0.bytes.length + p1 + 4 * ts.length + 8 - vo) := by omega
      rw [htn]
      have hr1 : readU16? (u32le 4 ++ (u32le (intToU32 ((vo : Int) - ((b0.bytes.length + p1 + 4 * ts.length + 12 : Nat) : Int))) ++ (u32le 4 ++ (u32le ts.length ++ (vecElemBytes (p1 + b0.bytes.length) ts ++ (List.replicate p1 0 ++ b0.bytes)))))) (8 + (b0.bytes.length + p1 + 4 * ts.length + 8 - vo)) = some 6 := by
        rw [readU16?_at (u32le 4) _ _ (4 + (b0.bytes.length + p1 + 4 * ts.length + 8 - vo))
          (by simp only [u32le_length]; omega)]
        rw [readU16?_at (u32le (intToU32 ((vo : Int) - ((b0.bytes.length + p1 + 4 * ts.length + 12 : Nat) : Int)))) _ _ (b0.bytes.length + p1 + 4 * ts.length + 8 - vo)
          (by simp only [u32le_length])]
        have h0 := readU16?_of_sliceAt (u32le 4 ++ (u32le ts.length ++ (vecElemBytes (p1 + b0.bytes.length) ts ++ (List.replicate p1 0 ++ b0.bytes)))) opInfoVTable (b0.bytes.length + p1 + 4 * ts.length + 8 - vo)
          hslice' 0 (by decide)
        simpa [opInfoVTable] using h0
      rw [hr1]
      simp only [Option.some_bind]
      rw [if_pos (by norm_num : (4 : Nat) < 6)]
      have hr2 : readU16? (u32le 4 ++ (u32le (intToU32 ((vo : Int) - ((b0.bytes.length + p1 + 4 * ts.length + 12 : Nat) : Int))) ++ (u32le 4 ++ (u32le ts.length ++ (vecElemBytes (p1 + b0.bytes.length) ts ++ (List.replicate p1 0 ++ b0.bytes)))))) (8 + (b0.bytes.length + p1 + 4 * ts.length + 8 - vo) + 4) = some 4 := by
        rw [readU16?_at (u32le 4) _ _ (4 + ((b0.bytes.length + p1 + 4 * ts.length + 8 - vo) + 4))
          (by simp only [u32le_length]; omega)]
        rw [readU16?_at (u32le (intToU32 ((vo : Int) - ((b0.bytes.length + p1 + 4 * ts.length + 12 : Nat) : Int)))) _ _ ((b0.bytes.length + p1 + 4 * ts.length + 8 - vo) + 4)
          (by simp only [u32le_length])]
        have h4p := readU16?_of_sliceAt (u32le 4 ++ (u32le ts.length ++ (vecElemBytes (p1 + b0.bytes.length) ts ++ (List.replicate p1 0 ++ b0.bytes)))) opInfoVTable (b0.bytes.length + p1 + 4 * ts.length + 8 - vo)
          hslice' 4 (by decide)
        simpa [opInfoVTable] using h4p
      exact hr2
    obtain ⟨hIsNone, hLen, hArgs⟩ := opinfo_read_common (u32le 4 ++ (u32le (intToU32 ((vo : Int) - ((b0.bytes.length + p1 + 4 * ts.length + 12 : Nat) : Int))) ++ (u32le 4 ++ (u32le ts.length ++ (vecElemBytes (p1 + b0.bytes.length) ts ++ (List.replicate p1 0 ++ b0.bytes)))))) (u32le 4 ++ u32le (intToU32 ((vo : Int) - ((b0.bytes.length + p1 + 4 * ts.length + 12 : Nat) : Int))))
      b0.bytes p1 4 ts hBdef hpre hofs hts (by omega) (by omega)
    refine ⟨⟨⟨(u32le 4 ++ (u32le (intToU32 ((vo : Int) - ((b0.bytes.length + p1 + 4 * ts.length + 12 : Nat) : Int))) ++ (u32le 4 ++ (u32le ts.length ++ (vecElemBytes (p1 + b0.bytes.length) ts ++ (List.replicate p1 0 ++ b0.bytes)))))), 4⟩⟩, ?_, hIsNone, hLen, hArgs⟩
    simp only [GetRootAsOpInfo]
    rw [hroot]
    rfl
  next hfind =>
    dsimp only
    simp only [List.append_assoc]
    simp only [Builder.Finish, Builder.prep, Builder.PrependUOffsetTRelative,
      Builder.place32, Builder.offset]
    have hlenN : (opInfoVTable ++ (u32le 6 ++ (u32le 4 ++ (u32le ts.length ++ (vecElemBytes (p1 + b0.bytes.length) ts ++ (List.replicate p1 0 ++ b0.bytes)))))).length = b0.bytes.length + p1 + 4 * ts.length + 18 := by
      simp only [List.length_append, u32le_length, hXlen, opInfoVTable]
      simp
      omega
    rw [hlenN]
    have hpadf : padLen 4 4 (b0.bytes.length + p1 + 4 * ts.length + 18) = 2 := by
      unfold padLen
      omega
    rw [hpadf]
    have hlenN2 : (List.replicate 2 0 ++ (opInfoVTable ++ (u32le 6 ++ (u32le 4 ++ (u32le ts.length ++ (vecElemBytes (p1 + b0.bytes.length) ts ++ (List.replicate p1 0 ++ b0.bytes))))))).length
        = b0.bytes.length + p1 + 4 * ts.length + 20 := by
      simp only [List.length_append, List.length_replicate, u32le_length, hXlen,
        opInfoVTable]
      simp
      omega
    rw [hlenN2]
    have hpadf0 : padLen 4 0 (b0.bytes.length + p1 + 4 * ts.length + 20) = 0 := by
      unfold padLen
      omega
    rw [hpadf0]
    simp only [List.replicate_zero, List.nil_append]
    rw [hlenN2]
    have harg : b0.bytes.length + p1 + 4 * ts.length + 20 + 4 - (b0.bytes.length + p1 + 4 * ts.length + 12) = 12 := by omega
    rw [harg]
    have hroot : readU32? (u32le 12 ++ (List.replicate 2 0 ++ (opInfoVTable ++ (u32le 6 ++ (u32le 4 ++ (u32le ts.length ++ (vecElemBytes (p1 + b0.bytes.length) ts ++ (List.replicate p1 0 ++ b0.bytes)))))))) 0 = some 12 := readU32?_u32le 12 _ (by norm_num)
    have hBdef : (u32le 12 ++ (List.replicate 2 0 ++ (opInfoVTable ++ (u32le 6 ++ (u32le 4 ++ (u32le ts.length ++ (vecElemBytes (p1 + b0.bytes.length) ts ++ (List.replicate p1 0 ++ b0.bytes)))))))) = (u32le 12 ++ (List.replicate 2 0 ++ (opInfoVTable ++ u32le 6))) ++ opInfoTail p1 ts b0.bytes := by
      simp [opInfoTail, List.append_assoc]
    have hpre : (u32le 12 ++ (List.replicate 2 0 ++ (opInfoVTable ++ u32le 6))).length = 12 + 4 := by
      simp [u32le_length, opInfoVTable]
    have hofs : Table.Offset ⟨(u32le 12 ++ (List.replicate 2 0 ++ (opInfoVTable ++ (u32le 6 ++ (u32le 4 ++ (u32le ts.length ++ (vecElemBytes (p1 + b0.bytes.length) ts ++ (List.replicate p1 0 ++ b0.bytes)))))))), 12⟩ 4 = some 4 := by
      simp only [Table.Offset]
      have hso : readI32? (u32le 12 ++ (List.replicate 2 0 ++ (opInfoVTable ++ (u32le 6 ++ (u32le 4 ++ (u32le ts.length ++ (vecElemBytes (p1 + b0.bytes.length) ts ++ (List.replicate p1 0 ++ b0.bytes)))))))) 12 = some ((6 : Nat) : Int) := by
        rw [readI32?_at (u32le 12) _ 12 8 (by norm_num [u32le_length])]
        rw [readI32?_at (List.replicate 2 0) _ 8 6 (by simp)]
        rw [readI32?_at opInfoVTable _ 6 0 (by norm_num [opInfoVTable])]
        exact readI32?_u32le_small 6 _ (by norm_num)
      rw [hso]
      simp only [Option.some_bind]
      rw [if_neg (by decide)]
      have htn : ((((12 : Nat) : Int)) - ((6 : Nat) : Int)).toNat = 6 := by decide
      rw [htn]
      have hv6 : readU16? (u32le 12 ++ (List.replicate 2 0 ++ (opInfoVTable ++ (u32le 6 ++ (u32le 4 ++ (u32le ts.length ++ (vecElemBytes (p1 + b0.bytes.length) ts ++ (List.replicate p1 0 ++ b0.bytes)))))))) 6 = some 6 := by
        rw [readU16?_at (u32le 12) _ 6 2 (by norm_num [u32le_length])]
        rw [readU16?_at (List.replicate 2 0) _ 2 0 (by simp)]
        simp [readU16?, readU8?, opInfoVTable]
      rw [hv6]
      simp only [Option.some_bind]
      rw [if_pos (by norm_num : (4 : Nat) < 6)]
      have hv10 : readU16? (u32le 12 ++ (List.replicate 2 0 ++ (opInfoVTable ++ (u32le 6 ++ (u32le 4 ++ (u32le ts.length ++ (vecElemBytes (p1 + b0.bytes.length) ts ++ (List.replicate p1 0 ++ b0.bytes)))))))) (6 + 4) = some 4 := by
        rw [readU16?_at (u32le 12) _ (6 + 4) 6 (by norm_num [u32le_length])]
        rw [readU16?_at (List.replicate 2 0) _ 6 4 (by simp)]
        simp [readU16?, readU8?, opInfoVTable]
      exact hv10
    obtain ⟨hIsNone, hLen, hArgs⟩ := opinfo_read_common (u32le 12 ++ (List.replicate 2 0 ++ (opInfoVTable ++ (u32le 6 ++ (u32le 4 ++ (u32le ts.length ++ (vecElemBytes (p1 + b0.bytes.length) ts ++ (List.replicate p1 0 ++ b0.bytes)))))))) (u32le 12 ++ (List.replicate 2 0 ++ (opInfoVTable ++ u32le 6)))
      b0.bytes p1 12 ts hBdef hpre hofs hts (by omega) (by omega)
    refine ⟨⟨⟨(u32le 12 ++ (List.replicate 2 0 ++ (opInfoVTable ++ (u32le 6 ++ (u32le 4 ++ (u32le ts.length ++ (vecElemBytes (p1 + b0.bytes.length) ts ++ (List.replicate p1 0 ++ b0.bytes)))))))), 12⟩⟩, ?_, hIsNone, hLen, hArgs⟩
    simp only [GetRootAsOpInfo]
    rw [hroot]
    rfl


theorem vtableBytes_nil (A B : Nat) : vtableBytes [] A B = u16le 4 ++ u16le (A - B) := by
  simp [vtableBytes]

/-- C2: absent-field default.  When the value passed to the slot-prepend
helper equals its default 0, nothing is stored: on the finished buffer the
field's resolved vtable entry is 0, OpKernelTypeStrArgsLength returns 0,
OpKernelTypeStrArgs returns None for every index, and
OpKernelTypeStrArgsIsNone returns True. -/
theorem c2_absent_field (b0 : Builder)
    (hvts : ∀ vo ∈ b0.vtables, vo ≤ b0.bytes.length)
    (hma : b0.minalign ∣ 4)
    (hsz : b0.bytes.length + 64 < 2147483648) :
    ∃ x : OpInfo,
      GetRootAsOpInfo (buildEmptyOpInfoBuffer b0) 0 = some x ∧
      Table.Offset x.tab 4 = some 0 ∧
      OpInfo.OpKernelTypeStrArgsLength x = some 0 ∧
      (∀ j, OpInfo.OpKernelTypeStrArgs x j = some none) ∧
      OpInfo.OpKernelTypeStrArgsIsNone x = some true := by
  obtain ⟨p2, hp2⟩ : ∃ p, padLen 4 0 b0.bytes.length = p := ⟨_, rfl⟩
  have hp2le : p2 ≤ 3 := hp2 ▸ padLen_four_le _ _
  have hp2mod : (b0.bytes.length + p2) % 4 = 0 := by
    have := hp2 ▸ padLen_four_mod 0 b0.bytes.length
    omega
  have hm4 : max b0.minalign 4 = 4 :=
    Nat.max_eq_right (Nat.le_of_dvd (by norm_num) hma)
  have htz : trimZeros (List.replicate 1 0) = [] := by decide
  simp only [buildEmptyOpInfoBuffer, OpInfoStart, OpInfoAddOpKernelTypeStrArgs,
    OpInfoEnd, Builder.StartObject, Builder.PrependUOffsetTRelativeSlot]
  rw [if_neg (by norm_num)]
  simp only [Builder.EndObject, Builder.prep, Builder.offset, htz,
    vtableBytes_nil, hm4]
  rw [hp2]
  have hlen2 : (List.replicate p2 0 ++ b0.bytes).length =
      b0.bytes.length + p2 := by
    simp only [List.length_append, List.length_replicate]
    omega
  rw [hlen2]
  have hclen : (u16le 4 ++ u16le (b0.bytes.length + p2 + 4 - b0.bytes.length)).length
      = 4 := by
    simp [u16le]
  rw [hclen]
  split
  next vo hfind =>
    have hvo : vo ≤ b0.bytes.length := hvts vo (List.mem_of_find?_eq_some hfind)
    have hslice : sliceAt (List.replicate p2 0 ++ b0.bytes) (b0.bytes.length + p2 - vo) 4 = u16le 4 ++ u16le (b0.bytes.length + p2 + 4 - b0.bytes.length) := by
      have := List.find?_some hfind
      simpa using this
    have hslice' : sliceAt (List.replicate p2 0 ++ b0.bytes) (b0.bytes.length + p2 - vo) (u16le 4 ++ u16le (b0.bytes.length + p2 + 4 - b0.bytes.length)).length
        = u16le 4 ++ u16le (b0.bytes.length + p2 + 4 - b0.bytes.length) := hslice
    dsimp only
    simp only [Builder.Finish, Builder.prep, Builder.PrependUOffsetTRelative,
      Builder.place32, Builder.offset]
    have hlenS : (u32le (intToU32 ((vo : Int) - ((b0.bytes.length + p2 + 4 : Nat) : Int))) ++ (List.replicate p2 0 ++ b0.bytes)).length = b0.bytes.length + p2 + 4 := by
      simp only [List.length_append, u32le_length, List.length_replicate]
      omega
    rw [hlenS]
    have hpadf : padLen 4 4 (b0.bytes.length + p2 + 4) = 0 := by
      unfold padLen
      omega
    rw [hpadf]
    simp only [List.replicate_zero, List.nil_append]
    rw [hlenS]
    have hpadf0 : padLen 4 0 (b0.bytes.length + p2 + 4) = 0 := by
      unfold padLen
      omega
    rw [hpadf0]
    simp only [List.replicate_zero, List.nil_append]
    rw [hlenS]
    have harg : b0.bytes.length + p2 + 4 + 4 - (b0.bytes.length + p2 + 4) = 4 := by omega
    rw [harg]
    have hroot : readU32? (u32le 4 ++ (u32le (intToU32 ((vo : Int) - ((b0.bytes.length + p2 + 4 : Nat) : Int))) ++ (List.replicate p2 0 ++ b0.bytes))) 0 = some 4 := readU32?_u32le 4 _ (by norm_num)
    have hofs : Table.Offset ⟨(u32le 4 ++ (u32le (intToU32 ((vo : Int) - ((b0.bytes.length + p2 + 4 : Nat) : Int))) ++ (List.replicate p2 0 ++ b0.bytes))), 4⟩ 4 = some 0 := by
      simp only [Table.Offset]
      have hso : readI32? (u32le 4 ++ (u32le (intToU32 ((vo : Int) - ((b0.bytes.length + p2 + 4 : Nat) : Int))) ++ (List.replicate p2 0 ++ b0.bytes))) 4 =
          some ((vo : Int) - ((b0.bytes.length + p2 + 4 : Nat) : Int)) := by
        rw [readI32?_at (u32le 4) _ 4 0 (by simp [u32le_length])]
        exact readI32?_u32le_int _ _ (by omega) (by omega)
      rw [hso]
      simp only [Option.some_bind]
      rw [if_neg (by omega)]
      have htn : ((((4 : Nat) : Int)) - ((vo : Int) - ((b0.bytes.length + p2 + 4 : Nat) : Int))).toNat
          = 8 + (b0.bytes.length + p2 - vo) := by omega
      rw [htn]
      have hr1 : readU16? (u32le 4 ++ (u32le (intToU32 ((vo : Int) - ((b0.bytes.length + p2 + 4 : Nat) : Int))) ++ (List.replicate p2 0 ++ b0.bytes))) (8 + (b0.bytes.length + p2 - vo)) = some 4 := by
        rw [readU16?_at (u32le 4) _ _ (4 + (b0.bytes.length + p2 - vo))
          (by simp only [u32le_length]; omega)]
        rw [readU16?_at (u32le (intToU32 ((vo : Int) - ((b0.bytes.length + p2 + 4 : Nat) : Int)))) _ _ (b0.bytes.length + p2 - vo)
          (by simp only [u32le_length])]
        have h0 := readU16?_of_sliceAt (List.replicate p2 0 ++ b0.bytes) (u16le 4 ++ u16le (b0.bytes.length + p2 + 4 - b0.bytes.length)) (b0.bytes.length + p2 - vo)
          hslice' 0 (by simp [u16le])
        simpa [u16le] using h0
      rw [hr1]
      simp only [Option.some_bind]
      rw [if_neg (by norm_num)]
    refine ⟨⟨⟨(u32le 4 ++ (u32le (intToU32 ((vo : Int) - ((b0.bytes.length + p2 + 4 : Nat) : Int))) ++ (List.replicate p2 0 ++ b0.bytes))), 4⟩⟩, ?_, hofs, ?_, ?_, ?_⟩
    · simp only [GetRootAsOpInfo]
      rw [hroot]
      rfl
    · simp only [OpInfo.OpKernelTypeStrArgsLength]
      rw [hofs]
      simp
    · intro j
      simp only [OpInfo.OpKernelTypeStrArgs]
      rw [hofs]
      simp
    · simp only [OpInfo.OpKernelTypeStrArgsIsNone]
      rw [hofs]
      simp
  next hfind =>
    dsimp only
    simp only [List.append_assoc]
    simp only [Builder.Finish, Builder.prep, Builder.PrependUOffsetTRelative,
      Builder.place32, Builder.offset]
    have hlenN : (u16le 4 ++ (u16le (b0.bytes.length + p2 + 4 - b0.bytes.length) ++
        (u32le 4 ++ (List.replicate p2 0 ++ b0.bytes)))).length = b0.bytes.length + p2 + 8 := by
      simp only [List.length_append, u32le_length, u16le_length,
        List.length_replicate]
      omega
    rw [hlenN]
    have hpadf : padLen 4 4 (b0.bytes.length + p2 + 8) = 0 := by
      unfold padLen
      omega
    rw [hpadf]
    simp only [List.replicate_zero, List.nil_append]
    rw [hlenN]
    have hpadf0 : padLen 4 0 (b0.bytes.length + p2 + 8) = 0 := by
      unfold padLen
      omega
    rw [hpadf0]
    simp only [List.replicate_zero, List.nil_append]
    rw [hlenN]
    have harg : b0.bytes.length + p2 + 8 + 4 - (b0.bytes.length + p2 + 4) = 8 := by omega
    rw [harg]
    have hroot : readU32? (u32le 8 ++ (u16le 4 ++ (u16le (b0.bytes.length + p2 + 4 - b0.bytes.length) ++ (u32le 4 ++ (List.replicate p2 0 ++ b0.bytes))))) 0 = some 8 := readU32?_u32le 8 _ (by norm_num)
    have hofs : Table.Offset ⟨(u32le 8 ++ (u16le 4 ++ (u16le (b0.bytes.length + p2 + 4 - b0.bytes.length) ++ (u32le 4 ++ (List.replicate p2 0 ++ b0.bytes))))), 8⟩ 4 = some 0 := by
      simp only [Table.Offset]
      have hso : readI32? (u32le 8 ++ (u16le 4 ++ (u16le (b0.bytes.length + p2 + 4 - b0.bytes.length) ++ (u32le 4 ++ (List.replicate p2 0 ++ b0.bytes))))) 8 = some ((4 : Nat) : Int) := by
        rw [readI32?_at (u32le 8) _ 8 4 (by norm_num [u32le_length])]
        rw [readI32?_at (u16le 4) _ 4 2 (by norm_num [u16le_length])]
        rw [readI32?_at (u16le (b0.bytes.length + p2 + 4 - b0.bytes.length)) _ 2 0
          (by norm_num [u16le_length])]
        exact readI32?_u32le_small 4 _ (by norm_num)
      rw [hso]
      simp only [Option.some_bind]
      rw [if_neg (by decide)]
      have htn : ((((8 : Nat) : Int)) - ((4 : Nat) : Int)).toNat = 4 := by decide
      rw [htn]
      have hv4 : readU16? (u32le 8 ++ (u16le 4 ++ (u16le (b0.bytes.length + p2 + 4 - b0.bytes.length) ++ (u32le 4 ++ (List.replicate p2 0 ++ b0.bytes))))) 4 = some 4 := by
        rw [readU16?_at (u32le 8) _ 4 0 (by norm_num [u32le_length])]
        exact readU16?_u16le 4 _ (by norm_num)
      rw [hv4]
      simp only [Option.some_bind]
      rw [if_neg (by norm_num)]
    refine ⟨⟨⟨(u32le 8 ++ (u16le 4 ++ (u16le (b0.bytes.length + p2 + 4 - b0.bytes.length) ++ (u32le 4 ++ (List.replicate p2 0 ++ b0.bytes))))), 8⟩⟩, ?_, hofs, ?_, ?_, ?_⟩
    · simp only [GetRootAsOpInfo]
      rw [hroot]
      rfl
    · simp only [OpInfo.OpKernelTypeStrArgsLength]
      rw [hofs]
      simp
    · intro j
      simp only [OpInfo.OpKernelTypeStrArgs]
      rw [hofs]
      simp
    · simp only [OpInfo.OpKernelTypeStrArgsIsNone]
      rw [hofs]
      simp


/-- state-passing reading computation: the state is the bound buffer.  A
failing byte read aborts (the source raises an exception there), and the
final state is the buffer as left behind by the call, so that a mutation
would be observable in the result. -/
def ReadM (α : Type) : Type := List Nat → Option α × List Nat

/-- sequencing of reading computations, threading the buffer state. -/
def ReadM.bind {α β : Type} (m : ReadM α) (f : α → ReadM β) : ReadM β :=
  fun s =>
    match m s with
    | (some a, s') => f a s'
    | (none, s') => (none, s')

/-- a computation returning a value, leaving the buffer untouched. -/
def ReadM.pure {α : Type} (a : α) : ReadM α := fun s => (some a, s)

/-- the aborting computation (a raised OutOfRange). -/
def ReadM.fail {α : Type} : ReadM α := fun s => (none, s)

/-- the byte read primitive: returns the byte at the position, out of range
aborts; the buffer is returned as is, reading does not write. -/
def getU8M (p : Nat) : ReadM Nat := fun s => (s[p]?, s)

/-- 16-bit little-endian read in state-passing form. -/
def getU16M (p : Nat) : ReadM Nat :=
  ReadM.bind (getU8M p) fun a =>
  ReadM.bind (getU8M (p + 1)) fun b =>
  ReadM.pure (a + 256 * b)

/-- 32-bit little-endian read in state-passing form. -/
def getU32M (p : Nat) : ReadM Nat :=
  ReadM.bind (getU8M p) fun a =>
  ReadM.bind (getU8M (p + 1)) fun b =>
  ReadM.bind (getU8M (p + 2)) fun c =>
  ReadM.bind (getU8M (p + 3)) fun d =>
  ReadM.pure (a + 256 * b + 65536 * c + 16777216 * d)

/-- signed 32-bit read in state-passing form. -/
def getI32M (p : Nat) : ReadM Int :=
  ReadM.bind (getU32M p) fun n =>
  ReadM.pure (if n < 2147483648 then (n : Int) else (n : Int) - 4294967296)

/-- the whole bound buffer (binding a view captures it; not a write). -/
def getBufM : ReadM (List Nat) := fun s => (some s, s)

/-- OpInfo.Init in state-passing form. -/
def InitM (pos : Nat) : ReadM OpInfo :=
  ReadM.bind getBufM fun b => ReadM.pure (OpInfo.Init b pos)

/-- GetRootAsOpInfo in state-passing form. -/
def GetRootAsOpInfoM (offset : Nat) : ReadM OpInfo :=
  ReadM.bind (getU32M offset) fun n => InitM (n + offset)

/-- field-offset resolution in state-passing form. -/
def OffsetM (pos vtableOffset : Nat) : ReadM Nat :=
  ReadM.bind (getI32M pos) fun so =>
    let vtI : Int := (pos : Int) - so
    if vtI < 0 then ReadM.fail else
    ReadM.bind (getU16M vtI.toNat) fun vtEnd =>
      if vtableOffset < vtEnd then getU16M (vtI.toNat + vtableOffset)
      else ReadM.pure 0

/-- OpKernelTypeStrArgs in state-passing form. -/
def OpKernelTypeStrArgsM (pos j : Nat) :
    ReadM (Option OpIdKernelTypeStrArgsEntry) :=
  ReadM.bind (OffsetM pos 4) fun o =>
    if o ≠ 0 then
      ReadM.bind (getU32M (pos + o)) fun u =>
        ReadM.bind (getU32M (pos + o + u + 4 + j * 4)) fun w =>
          ReadM.bind getBufM fun b =>
            ReadM.pure (some (OpIdKernelTypeStrArgsEntry.Init b
              (pos + o + u + 4 + j * 4 + w)))
    else ReadM.pure none

/-- OpKernelTypeStrArgsLength in state-passing form. -/
def OpKernelTypeStrArgsLengthM (pos : Nat) : ReadM Nat :=
  ReadM.bind (OffsetM pos 4) fun o =>
    if o ≠ 0 then
      ReadM.bind (getU32M (pos + o)) fun u => getU32M (pos + o + u)
    else ReadM.pure 0

/-- OpKernelTypeStrArgsIsNone in state-passing form. -/
def OpKernelTypeStrArgsIsNoneM (pos : Nat) : ReadM Bool :=
  ReadM.bind (OffsetM pos 4) fun o => ReadM.pure (o == 0)

theorem getU8M_eq (p : Nat) (s : List Nat) : getU8M p s = (readU8? s p, s) :=
  rfl

theorem getU16M_eq (p : Nat) (s : List Nat) :
    getU16M p s = (readU16? s p, s) := by
  cases hs : s[p]? <;> cases hs2 : s[p + 1]? <;>
    simp [getU16M, getU8M, ReadM.bind, ReadM.pure, readU16?, readU8?, hs, hs2]

theorem getU32M_eq (p : Nat) (s : List Nat) :
    getU32M p s = (readU32? s p, s) := by
  cases hs : s[p]? <;> cases hs1 : s[p + 1]? <;> cases hs2 : s[p + 2]? <;>
    cases hs3 : s[p + 3]? <;>
    simp [getU32M, getU8M, ReadM.bind, ReadM.pure, readU32?, readU8?,
      hs, hs1, hs2, hs3]

theorem getI32M_eq (p : Nat) (s : List Nat) :
    getI32M p s = (readI32? s p, s) := by
  unfold getI32M readI32? ReadM.bind
  rw [getU32M_eq]
  cases hs : readU32? s p <;> simp [ReadM.pure]

theorem OffsetM_eq (pos v : Nat) (s : List Nat) :
    OffsetM pos v s = (Table.Offset ⟨s, pos⟩ v, s) := by
  unfold OffsetM Table.Offset
  simp only [ReadM.bind]
  rw [getI32M_eq]
  cases hso : readI32? s pos with
  | none => simp
  | some so =>
    simp only [Option.some_bind]
    by_cases hneg : (pos : Int) - so < 0
    · simp [hneg, ReadM.fail]
    · simp only [if_neg hneg, ReadM.bind]
      rw [getU16M_eq]
      cases hvt : readU16? s ((pos : Int) - so).toNat with
      | none => simp
      | some vtEnd =>
        simp only [Option.some_bind]
        by_cases hlt : v < vtEnd
        · simp [hlt, getU16M_eq]
        · simp [hlt, ReadM.pure]

theorem GetRootAsOpInfoM_eq (offset : Nat) (s : List Nat) :
    GetRootAsOpInfoM offset s = (GetRootAsOpInfo s offset, s) := by
  unfold GetRootAsOpInfoM GetRootAsOpInfo InitM getBufM
  simp only [ReadM.bind]
  rw [getU32M_eq]
  cases hn : readU32? s offset <;> simp [hn, ReadM.pure]

theorem OpKernelTypeStrArgsM_eq (pos j : Nat) (s : List Nat) :
    OpKernelTypeStrArgsM pos j s =
      (OpInfo.OpKernelTypeStrArgs (OpInfo.Init s pos) j, s) := by
  unfold OpKernelTypeStrArgsM OpInfo.OpKernelTypeStrArgs OpInfo.Init
  simp only [ReadM.bind]
  rw [OffsetM_eq]
  cases ho : Table.Offset ⟨s, pos⟩ 4 with
  | none => simp
  | some o =>
    simp only [Option.some_bind]
    by_cases h0 : o = 0
    · simp [h0, ReadM.pure]
    · simp only [if_pos h0, ne_eq, h0, not_false_eq_true, if_true,
        Table.Vector, Table.Indirect, ReadM.bind]
      rw [getU32M_eq]
      cases hu : readU32? s (pos + o) with
      | none => simp
      | some u =>
        simp only [Option.map_some', Option.some_bind, ReadM.bind]
        rw [getU32M_eq]
        cases hw : readU32? s (pos + o + u + 4 + j * 4) with
        | none => simp
        | some w =>
          simp [getBufM, ReadM.pure, OpIdKernelTypeStrArgsEntry.Init]

theorem OpKernelTypeStrArgsLengthM_eq (pos : Nat) (s : List Nat) :
    OpKernelTypeStrArgsLengthM pos s =
      (OpInfo.OpKernelTypeStrArgsLength (OpInfo.Init s pos), s) := by
  unfold OpKernelTypeStrArgsLengthM OpInfo.OpKernelTypeStrArgsLength OpInfo.Init
  simp only [ReadM.bind]
  rw [OffsetM_eq]
  cases ho : Table.Offset ⟨s, pos⟩ 4 with
  | none => simp
  | some o =>
    simp only [Option.some_bind]
    by_cases h0 : o = 0
    · simp [h0, ReadM.pure]
    · simp only [if_pos h0, ne_eq, h0, not_false_eq_true, if_true,
        Table.VectorLen, ReadM.bind]
      rw [getU32M_eq]
      cases hu : readU32? s (pos + o) with
      | none => simp
      | some u =>
        simp only [Option.some_bind]
        rw [getU32M_eq]

theorem OpKernelTypeStrArgsIsNoneM_eq (pos : Nat) (s : List Nat) :
    OpKernelTypeStrArgsIsNoneM pos s =
      (OpInfo.OpKernelTypeStrArgsIsNone (OpInfo.Init s pos), s) := by
  unfold OpKernelTypeStrArgsIsNoneM OpInfo.OpKernelTypeStrArgsIsNone OpInfo.Init
  simp only [ReadM.bind]
  rw [OffsetM_eq]
  cases ho : Table.Offset ⟨s, pos⟩ 4 <;> simp [ReadM.pure]

theorem InitM_eq (pos : Nat) (s : List Nat) :
    InitM pos s = (some (OpInfo.Init s pos), s) := rfl

/-- C7: every read accessor of OpInfo leaves the underlying buffer bytes
unchanged: in the state-passing embedding, each call returns the original
buffer as its final state (and its value agrees with the pure reading
semantics).  Reads are pure and side-effect free. -/
theorem c7_reads_pure (buf : List Nat) (offset pos j : Nat) :
    GetRootAsOpInfoM offset buf = (GetRootAsOpInfo buf offset, buf) ∧
    InitM pos buf = (some (OpInfo.Init buf pos), buf) ∧
    OpKernelTypeStrArgsM pos j buf =
      (OpInfo.OpKernelTypeStrArgs (OpInfo.Init buf pos) j, buf) ∧
    OpKernelTypeStrArgsLengthM pos buf =
      (OpInfo.OpKernelTypeStrArgsLength (OpInfo.Init buf pos), buf) ∧
    OpKernelTypeStrArgsIsNoneM pos buf =
      (OpInfo.OpKernelTypeStrArgsIsNone (OpInfo.Init buf pos), buf) :=
  ⟨GetRootAsOpInfoM_eq offset buf, InitM_eq pos buf,
    OpKernelTypeStrArgsM_eq pos j buf, OpKernelTypeStrArgsLengthM_eq pos buf,
    OpKernelTypeStrArgsIsNoneM_eq pos buf⟩

/-- C1 witness: a concrete roundtrip.  The initial builder holds four bytes
standing for one already-built nested table at offset 4 from the buffer end;
the vector stores that one table offset, and reading the finished buffer
recovers length 1 and the same table offset. -/
theorem c1_roundtrip_witness :
    ∃ x : OpInfo,
      GetRootAsOpInfo (buildOpInfoBuffer ⟨[9, 9, 9, 9], 1, [], 0, []⟩ [4]) 0 =
        some x ∧
      OpInfo.OpKernelTypeStrArgsIsNone x = some false ∧
      OpInfo.OpKernelTypeStrArgsLength x = some ([4] : List Nat).length ∧
      ∀ j, ∀ hj : j < ([4] : List Nat).length,
        OpInfo.OpKernelTypeStrArgs x j =
          some (some ⟨⟨buildOpInfoBuffer ⟨[9, 9, 9, 9], 1, [], 0, []⟩ [4],
            (buildOpInfoBuffer ⟨[9, 9, 9, 9], 1, [], 0, []⟩ [4]).length -
              ([4] : List Nat)[j]⟩⟩) :=
  c1_roundtrip ⟨[9, 9, 9, 9], 1, [], 0, []⟩ [4]
    (by decide) (by decide) (by decide) (by decide)

/-- C2 witness: building from the empty builder with the field left at its
default yields a buffer whose accessors all report the field absent. -/
theorem c2_absent_field_witness :
    ∃ x : OpInfo,
      GetRootAsOpInfo (buildEmptyOpInfoBuffer ⟨[], 1, [], 0, []⟩) 0 = some x ∧
      Table.Offset x.tab 4 = some 0 ∧
      OpInfo.OpKernelTypeStrArgsLength x = some 0 ∧
      (∀ j, OpInfo.OpKernelTypeStrArgs x j = some none) ∧
      OpInfo.OpKernelTypeStrArgsIsNone x = some true :=
  c2_absent_field ⟨[], 1, [], 0, []⟩ (by decide) (by decide) (by decide)
